import Mathlib

/-!
Verification of the charcuterie-board order/label parsing pipeline.

Shallow embedding of the Python sources:
  src/utils/helpers.py, src/parsers/order_parser.py,
  src/parsers/shipping_parser.py, src/parsers/label_matcher.py,
  src/generators/csv_generator.py

Strings are modelled as `List Char`.  Python regular expressions used by the
code are small and concrete; each is translated into an explicit matching
function on character lists whose semantics follow the CPython `re` engine
on the relevant pattern.
-/

namespace BoardParser

/-- Whitespace characters recognised by Python `str.strip`, `\s` (ASCII range). -/
def isSpacePy (c : Char) : Bool :=
  c == ' ' || c == '\t' || c == '\n' || c == '\r' || c == '\x0b' || c == '\x0c'

/-- ASCII decimal digit, the `\d` class on the ASCII inputs handled here. -/
def isDigit09 (c : Char) : Bool :=
  '0' ≤ c && c ≤ '9'

/-- Lowercase ASCII letter or digit, the class kept by `normalize_for_match`. -/
def isLowerAlnum (c : Char) : Bool :=
  ('a' ≤ c && c ≤ 'z') || isDigit09 c

/-- Word character for the regex `\b` boundary (`[A-Za-z0-9_]` on ASCII input). -/
def isWordChar (c : Char) : Bool :=
  ('a' ≤ c && c ≤ 'z') || ('A' ≤ c && c ≤ 'Z') || isDigit09 c || c == '_'

/-- Uppercase ASCII letter, the `[A-Z]` class. -/
def isUpperAZ (c : Char) : Bool :=
  'A' ≤ c && c ≤ 'Z'

/-- Drop a matching suffix of whitespace (helper for `pyStrip`). -/
def stripEnd (l : List Char) : List Char :=
  (l.reverse.dropWhile isSpacePy).reverse

/-- Python `str.strip()`: remove leading and trailing whitespace.
`safe_strip` in helpers.py is this function (inputs here are strings, so the
`str(...)` coercion is the identity). -/
def pyStrip (l : List Char) : List Char :=
  stripEnd (l.dropWhile isSpacePy)

/-- Python `str.lower()` on the ASCII strings handled here. -/
def toLowerStr (l : List Char) : List Char :=
  l.map Char.toLower

/-- Python substring test `needle in hay`. -/
def containsSeg (needle hay : List Char) : Bool :=
  (List.range (hay.length + 1)).any (fun i => needle.isPrefixOf (hay.drop i))

/-- Consume an exact literal from the front of the input (regex literal text). -/
def dropLit : List Char → List Char → Option (List Char)
  | [], l => some l
  | _ :: _, [] => none
  | c :: cs, x :: xs => if x == c then dropLit cs xs else none

/-- Consume exactly `n` ASCII digits from the front of the input (`\d{n}`). -/
def digitsN : Nat → List Char → Option (List Char)
  | 0, l => some l
  | _ + 1, [] => none
  | n + 1, c :: cs => if isDigit09 c then digitsN n cs else none

/-- helpers.normalize_for_match: strip, lowercase, keep only `[a-z0-9]`. -/
def normalizeForMatch (l : List Char) : List Char :=
  (toLowerStr (pyStrip l)).filter isLowerAlnum

/-!
difflib.SequenceMatcher as used by `fuzzy_equal` (stdlib difflib, called with
junk function `None`).  For the inputs reaching it from this code base the
autojunk heuristic is inert: it only marks characters when the second string
has at least 200 characters, and all inputs here are shorter; the junk sets
are therefore empty and the junk branches of the algorithm never fire.
-/

/-- Result of `find_longest_match`: start in `a`, start in `b`, length. -/
structure LMatch where
  ia : Nat
  ib : Nat
  size : Nat
  deriving Repr, DecidableEq

/-- Backward extension loop of `find_longest_match` (empty junk set). -/
def extendBwd (a b : List Char) (alo blo : Nat) : Nat → LMatch → LMatch
  | 0, m => m
  | fuel + 1, m =>
    if alo < m.ia && blo < m.ib &&
        (a.getD (m.ia - 1) ' ' == b.getD (m.ib - 1) ' ') then
      extendBwd a b alo blo fuel ⟨m.ia - 1, m.ib - 1, m.size + 1⟩
    else m

/-- Forward extension loop of `find_longest_match` (empty junk set). -/
def extendFwd (a b : List Char) (ahi bhi : Nat) : Nat → LMatch → LMatch
  | 0, m => m
  | fuel + 1, m =>
    if m.ia + m.size < ahi && m.ib + m.size < bhi &&
        (a.getD (m.ia + m.size) ' ' == b.getD (m.ib + m.size) ' ') then
      extendFwd a b ahi bhi fuel ⟨m.ia, m.ib, m.size + 1⟩
    else m

/-- One row of the `j2len` dynamic program of `find_longest_match`:
`row.getD j 0` is the length of the run of equal characters ending at
`(i, j)`; positions outside `[blo, bhi)` or without a character match hold 0,
exactly the keys absent from the Python dict. -/
def flmRow (aChar : Char) (b : List Char) (blo bhi : Nat) (old : List Nat) :
    List Nat :=
  (List.range bhi).map (fun j =>
    if blo ≤ j && (b.getD j ' ' == aChar) then
      (if j == 0 then 0 else old.getD (j - 1) 0) + 1
    else 0)

/-- Best-match update for one row, scanning `j` in increasing order with a
strict comparison, as the Python loop does (first longest match wins). -/
def flmBestRow (i : Nat) (blo bhi : Nat) (row : List Nat) (best : LMatch) :
    LMatch :=
  (List.range bhi).foldl (fun best j =>
    let k := row.getD j 0
    if blo ≤ j && k > best.size then ⟨i + 1 - k, j + 1 - k, k⟩ else best) best

/-- difflib `SequenceMatcher.find_longest_match` on `a[alo:ahi]`, `b[blo:bhi]`
with empty junk sets. -/
def findLongestMatch (a b : List Char) (alo ahi blo bhi : Nat) : LMatch :=
  let step := fun (st : List Nat × LMatch) (i : Nat) =>
    let row := flmRow (a.getD i ' ') b blo bhi st.1
    (row, flmBestRow i blo bhi row st.2)
  let init : List Nat × LMatch := (List.replicate bhi 0, ⟨alo, blo, 0⟩)
  let best := (((List.range ahi).drop alo).foldl step init).2
  let best := extendBwd a b alo blo best.ia best
  extendFwd a b ahi bhi (ahi - (best.ia + best.size)) best

/-- Total size of all matching blocks found by `get_matching_blocks`
(the queue recursion; the traversal order does not affect the sum).
`fuel` bounds the recursion depth; `(ahi - alo) + (bhi - blo)` shrinks at
every recursive call, so any fuel above `a.length + b.length` is enough. -/
def matchTotal (a b : List Char) : Nat → Nat → Nat → Nat → Nat → Nat
  | 0, _, _, _, _ => 0
  | fuel + 1, alo, ahi, blo, bhi =>
    let m := findLongestMatch a b alo ahi blo bhi
    if m.size == 0 then 0
    else
      matchTotal a b fuel alo m.ia blo m.ib + m.size +
        matchTotal a b fuel (m.ia + m.size) ahi (m.ib + m.size) bhi

/-- difflib `SequenceMatcher(None, a, b).ratio()` compared against the 0.8
threshold.  `ratio = 2*M/(|a|+|b|)`; `ratio >= 0.8` is the rational
comparison `10*M >= 4*(|a|+|b|)` (the rationals occurring here have small
denominators, far from the half-ulp window of the binary64 constant 0.8, and
a rational value of exactly 4/5 rounds to the same double as the literal
`0.8`, so the float comparison and the rational one agree). -/
def seqRatioGE45 (a b : List Char) : Bool :=
  10 * matchTotal a b (a.length + b.length + 1) 0 a.length 0 b.length ≥
    4 * (a.length + b.length)

/-- helpers.fuzzy_equal with the default threshold 0.8. -/
def fuzzyEqual (a b : List Char) : Bool :=
  let aNorm := normalizeForMatch a
  let bNorm := normalizeForMatch b
  if aNorm.isEmpty || bNorm.isEmpty then false
  else seqRatioGE45 aNorm bNorm

/-!
label_matcher.match_orders_to_labels.

Data-frame rows are modelled as structures; `Option` fields model cells that
may hold NaN (`fillna("")` replaces a missing cell by the empty string, and
`astype(str)` is the identity on the string cells modelled here).
`Series.get (column, "")` for the name columns is modelled by a plain string
field.  The library mutates only local copies of the frames, so the function
is a pure map over the order rows.
-/

/-- One row of the orders frame, restricted to the columns the matcher reads. -/
structure OrderRow where
  order_id : List Char
  ship_to_name : List Char
  address_line1 : Option (List Char)
  zip : Option (List Char)
  deriving Repr, DecidableEq

/-- One row of the labels frame, restricted to the columns the matcher reads. -/
structure LabelRow where
  label_id : List Char
  recipient_name : List Char
  address_line1 : Option (List Char)
  zip : Option (List Char)
  deriving Repr, DecidableEq

/-- Helper column `norm_addr1` of an order row. -/
def ordNormAddr1 (o : OrderRow) : List Char :=
  normalizeForMatch (o.address_line1.getD [])

/-- Helper column `norm_zip` of an order row. -/
def ordNormZip (o : OrderRow) : List Char :=
  o.zip.getD []

/-- Helper column `norm_addr1` of a label row. -/
def labNormAddr1 (l : LabelRow) : List Char :=
  normalizeForMatch (l.address_line1.getD [])

/-- Helper column `norm_zip` of a label row. -/
def labNormZip (l : LabelRow) : List Char :=
  l.zip.getD []

/-- Status string for a matched order. -/
def matchedStatus : List Char := "✓ Matched".toList

/-- Status string for an unmatched order. -/
def missingStatus : List Char := "⚠️ Missing".toList

/-- Inner loop of the matcher: scan the label rows in frame order and stop at
the first one passing the zip / address / fuzzy-name checks (the `break`). -/
def matchOne (o : OrderRow) : List LabelRow → List Char × List Char
  | [] => ([], missingStatus)
  | lab :: rest =>
    if !(ordNormZip o).isEmpty && ordNormZip o == labNormZip lab then
      if !(ordNormAddr1 o).isEmpty && ordNormAddr1 o == labNormAddr1 lab then
        if fuzzyEqual o.ship_to_name lab.recipient_name then
          (lab.label_id, matchedStatus)
        else matchOne o rest
      else matchOne o rest
    else matchOne o rest

/-- label_matcher.match_orders_to_labels: annotate every order row with
`matched_label_id` and `shipping_label_status`. -/
def matchOrdersToLabels (orders : List OrderRow) (labels : List LabelRow) :
    List (OrderRow × List Char × List Char) :=
  if orders.isEmpty || labels.isEmpty then
    orders.map (fun o => (o, [], missingStatus))
  else
    orders.map (fun o => (o, matchOne o labels))

/-- Qualification predicate as the specification phrases it: both postal
codes non-empty and identical, both normalized address lines non-empty and
identical, and the recipient names fuzzy-equal. -/
def qualifiesSpec (o : OrderRow) (lab : LabelRow) : Bool :=
  (!(ordNormZip o).isEmpty && !(labNormZip lab).isEmpty &&
      ordNormZip o == labNormZip lab) &&
    (!(ordNormAddr1 o).isEmpty && !(labNormAddr1 lab).isEmpty &&
      ordNormAddr1 o == labNormAddr1 lab) &&
    fuzzyEqual o.ship_to_name lab.recipient_name

/-- Annotation the specification predicts for one order row. -/
def annotateSpec (labels : List LabelRow) (o : OrderRow) :
    OrderRow × List Char × List Char :=
  match labels.find? (fun lab => qualifiesSpec o lab) with
  | some lab => (o, lab.label_id, matchedStatus)
  | none => (o, [], missingStatus)

/-!
helpers.normalize_board_type.
-/

/-- Keyword list of the board-plus-utensils classification rule. -/
def utensilVariants : List (List Char) :=
  ["board+utensils".toList, "board + utensils".toList,
   "board & utensils".toList, "board and utensils".toList,
   "board + cheese knife".toList, "board+cheese knife".toList,
   "board & knife".toList, "board and knife".toList]

/-- helpers.normalize_board_type. -/
def normalizeBoardType (raw : List Char) : List Char :=
  let raw := pyStrip raw
  let lower := toLowerStr raw
  if raw.isEmpty then []
  else if containsSeg "no engraving".toList lower then "No Engraving".toList
  else if containsSeg "board only".toList lower &&
      !containsSeg "utensil".toList lower then "Board Only".toList
  else if utensilVariants.any (fun k => containsSeg k lower) then
    "Board+Utensils Engraving".toList
  else raw

/-!
helpers.parse_order_date.

`datetime.strptime` is tried with the formats `"%a, %b %d, %Y"`,
`"%b %d, %Y"`, `"%Y-%m-%d"`; the CPython `_strptime` regex fragments are
`%a`/`%b` = alternation of the locale day/month abbreviations (matched
case-insensitively, modelled by lowercasing the input), `%d` =
`3[01]|[12]\d|0[1-9]|[1-9]`, `%m` = `1[0-2]|0[1-9]|[1-9]`, `%Y` = `\d{4}`,
whitespace = `\s+`, with the whole input consumed.  A successful regex match
still raises `ValueError` when `datetime(y, m, d)` rejects the triple, which
sends the loop to the next format.
-/

/-- Numeric value of an ASCII digit character. -/
def digitVal (c : Char) : Nat := c.toNat - 48

/-- Digit character of a value below 10. -/
def digitChar (v : Nat) : Char := Char.ofNat (48 + v)

/-- Lowercased day-of-week abbreviations recognised by `%a` (C locale). -/
def dayAbbrs : List (List Char) :=
  ["mon".toList, "tue".toList, "wed".toList, "thu".toList,
   "fri".toList, "sat".toList, "sun".toList]

/-- Lowercased month abbreviations recognised by `%b` (C locale). -/
def monthAbbrs : List (List Char) :=
  ["jan".toList, "feb".toList, "mar".toList, "apr".toList,
   "may".toList, "jun".toList, "jul".toList, "aug".toList,
   "sep".toList, "oct".toList, "nov".toList, "dec".toList]

/-- Consume one abbreviation from the list, returning its 1-based index. -/
def dropAbbr (abbrs : List (List Char)) (l : List Char) :
    Option (Nat × List Char) :=
  abbrs.enum.findSome? (fun p => (dropLit p.2 l).map (fun r => (p.1 + 1, r)))

/-- Regex `\s+` (at least one whitespace character, maximal munch: every
token following it in the formats used here is outside the class). -/
def wsPlus : List Char → Option (List Char)
  | c :: rest => if isSpacePy c then some (rest.dropWhile isSpacePy) else none
  | [] => none

/-- Regex `%Y` = `\d{4}`, with the numeric value. -/
def parseY4 : List Char → Option (Nat × List Char)
  | c1 :: c2 :: c3 :: c4 :: rest =>
    if isDigit09 c1 && isDigit09 c2 && isDigit09 c3 && isDigit09 c4 then
      some (1000 * digitVal c1 + 100 * digitVal c2 + 10 * digitVal c3 +
        digitVal c4, rest)
    else none
  | _ => none

/-- Regex `%m` = `1[0-2]|0[1-9]|[1-9]`: all parses in alternation order, for
backtracking into the continuation. -/
def monthAlts : List Char → List (Nat × List Char)
  | c1 :: c2 :: rest =>
    (if c1 == '1' && ('0' ≤ c2 && c2 ≤ '2') then [(10 + digitVal c2, rest)]
     else []) ++
    (if c1 == '0' && ('1' ≤ c2 && c2 ≤ '9') then [(digitVal c2, rest)]
     else []) ++
    (if '1' ≤ c1 && c1 ≤ '9' then [(digitVal c1, c2 :: rest)] else [])
  | [c1] => if '1' ≤ c1 && c1 ≤ '9' then [(digitVal c1, [])] else []
  | [] => []

/-- Regex `%d` = `3[01]|[12]\d|0[1-9]|[1-9]`: all parses in alternation
order. -/
def dayAlts : List Char → List (Nat × List Char)
  | c1 :: c2 :: rest =>
    (if c1 == '3' && ('0' ≤ c2 && c2 ≤ '1') then [(30 + digitVal c2, rest)]
     else []) ++
    (if ('1' ≤ c1 && c1 ≤ '2') && isDigit09 c2 then
      [(10 * digitVal c1 + digitVal c2, rest)] else []) ++
    (if c1 == '0' && ('1' ≤ c2 && c2 ≤ '9') then [(digitVal c2, rest)]
     else []) ++
    (if '1' ≤ c1 && c1 ≤ '9' then [(digitVal c1, c2 :: rest)] else [])
  | [c1] => if '1' ≤ c1 && c1 ≤ '9' then [(digitVal c1, [])] else []
  | [] => []

/-- Format `"%a, %b %d, %Y"` on a lowercased input, full match. -/
def strpFmt1 (l : List Char) : Option (Nat × Nat × Nat) := do
  let (_, r1) ← dropAbbr dayAbbrs l
  let r2 ← dropLit [','] r1
  let r3 ← wsPlus r2
  let (m, r4) ← dropAbbr monthAbbrs r3
  let r5 ← wsPlus r4
  (dayAlts r5).findSome? (fun p => do
    let r6 ← dropLit [','] p.2
    let r7 ← wsPlus r6
    let (y, r8) ← parseY4 r7
    if r8.isEmpty then some (y, m, p.1) else none)

/-- Format `"%b %d, %Y"` on a lowercased input, full match. -/
def strpFmt2 (l : List Char) : Option (Nat × Nat × Nat) := do
  let (m, r1) ← dropAbbr monthAbbrs l
  let r2 ← wsPlus r1
  (dayAlts r2).findSome? (fun p => do
    let r3 ← dropLit [','] p.2
    let r4 ← wsPlus r3
    let (y, r5) ← parseY4 r4
    if r5.isEmpty then some (y, m, p.1) else none)

/-- Format `"%Y-%m-%d"` on a lowercased input, full match. -/
def strpIso (l : List Char) : Option (Nat × Nat × Nat) := do
  let (y, r1) ← parseY4 l
  let r2 ← dropLit ['-'] r1
  (monthAlts r2).findSome? (fun pm => do
    let r3 ← dropLit ['-'] pm.2
    (dayAlts r3).findSome? (fun pd =>
      if pd.2.isEmpty then some (y, pm.1, pd.1) else none))

/-- Gregorian leap-year rule used by `datetime`. -/
def isLeap (y : Nat) : Bool :=
  (y % 4 == 0 && y % 100 != 0) || y % 400 == 0

/-- Number of days of a month, as `datetime` validates it. -/
def daysInMonth (y m : Nat) : Nat :=
  if m == 2 then (if isLeap y then 29 else 28)
  else if m == 4 || m == 6 || m == 9 || m == 11 then 30
  else 31

/-- Validity check of the `datetime(y, m, d)` constructor (the year here is
always below 10000, coming from a 4-digit parse). -/
def validDate (y m d : Nat) : Bool :=
  1 ≤ y && 1 ≤ m && m ≤ 12 && 1 ≤ d && d ≤ daysInMonth y m

/-- Keep a parsed triple only when `datetime` accepts it (a rejection raises
`ValueError`, caught by the format loop). -/
def validOpt (t : Option (Nat × Nat × Nat)) : Option (Nat × Nat × Nat) :=
  t.bind (fun v => if validDate v.1 v.2.1 v.2.2 then some v else none)

/-- Two decimal digits, zero padded. -/
def pad2 (n : Nat) : List Char :=
  [digitChar (n / 10 % 10), digitChar (n % 10)]

/-- Four decimal digits, zero padded. -/
def pad4 (n : Nat) : List Char :=
  [digitChar (n / 1000 % 10), digitChar (n / 100 % 10),
   digitChar (n / 10 % 10), digitChar (n % 10)]

/-- Python `date(y, m, d).isoformat()` for the year/month/day ranges
produced here (year below 10000). -/
def isoFormat (y m d : Nat) : List Char :=
  pad4 y ++ '-' :: pad2 m ++ '-' :: pad2 d

/-- Regex `\d\d`, with the numeric value. -/
def digitsPair : List Char → Option (Nat × List Char)
  | c1 :: c2 :: rest =>
    if isDigit09 c1 && isDigit09 c2 then
      some (10 * digitVal c1 + digitVal c2, rest)
    else none
  | _ => none

/-- Model of `dateutil.parser.parse` restricted to the all-numeric
dash-separated `NNNN-NN-NN` shape, the only shape on which the claims
evaluate it.  dateutil tokenises the three numbers; a leading 4-digit number
fixes the year, and with the year index known the remaining two numbers are
taken as month then day in source order (`_resolve_ymd`, default
`dayfirst`/`yearfirst`); the triple is then validated by the `datetime`
constructor, whose `ValueError` propagates out of `parse`.  Inputs of any
other shape are not modelled and map to `none`. -/
def dateutilNumericIso (l : List Char) : Option (Nat × Nat × Nat) := do
  let (y, r1) ← parseY4 l
  let r2 ← dropLit ['-'] r1
  let (m, r3) ← digitsPair r2
  let r4 ← dropLit ['-'] r3
  let (d, r5) ← digitsPair r4
  if r5.isEmpty && validDate y m d then some (y, m, d) else none

/-- helpers.parse_order_date: strip, try the three strptime formats, then
dateutil, and keep the raw string on total failure. -/
def parseOrderDate (raw : List Char) : List Char :=
  let raw := pyStrip raw
  if raw.isEmpty then []
  else
    let lower := toLowerStr raw
    match (validOpt (strpFmt1 lower)).orElse
        (fun _ => (validOpt (strpFmt2 lower)).orElse
          (fun _ => (validOpt (strpIso lower)).orElse
            (fun _ => dateutilNumericIso raw))) with
    | some v => isoFormat v.1 v.2.1 v.2.2
    | none => raw

/-- Canonical `YYYY-MM-DD` shape: ten characters, digits in the date
positions, dashes at positions 4 and 7. -/
def isoShape : List Char → Bool
  | [c1, c2, c3, c4, d1, c5, c6, d2, c7, c8] =>
    isDigit09 c1 && isDigit09 c2 && isDigit09 c3 && isDigit09 c4 &&
      d1 == '-' && isDigit09 c5 && isDigit09 c6 && d2 == '-' &&
      isDigit09 c7 && isDigit09 c8
  | _ => false

/-!
order_parser._split_segments.

`re.split(r"(?=Order ID:\s*\d{3}-\d{7}-\d{7})", full_text)` splits the text
at every position where the zero-width lookahead matches, then the list
comprehension keeps the parts containing the substring `"Order ID:"`.
-/

/-- Literal `"Order ID:"`. -/
def orderIdLit : List Char := ['O', 'r', 'd', 'e', 'r', ' ', 'I', 'D', ':']

/-- The lookahead body `Order ID:\s*\d{3}-\d{7}-\d{7}` matched at the front
of the input (existence only; the whitespace run is maximal because a digit
follows it). -/
def markerFrom (l : List Char) : Bool :=
  (do
    let r1 ← dropLit orderIdLit l
    let r2 := r1.dropWhile isSpacePy
    let r3 ← digitsN 3 r2
    let r4 ← dropLit ['-'] r3
    let r5 ← digitsN 7 r4
    let r6 ← dropLit ['-'] r5
    digitsN 7 r6).isSome

/-- Positions of the text at which the lookahead matches; `re.split` cuts at
exactly these (zero-width) positions. -/
def markerPositions (text : List Char) : List Nat :=
  (List.range text.length).filter (fun i => markerFrom (text.drop i))

/-- Pieces of the text between consecutive cut positions: part before the
first cut, parts between cuts, part after the last cut. -/
def cutPieces (text : List Char) (ps : List Nat) : List (List Char) :=
  ((0 :: ps).zip (ps ++ [text.length])).map
    (fun ab => (text.drop ab.1).take (ab.2 - ab.1))

/-- order_parser._split_segments. -/
def splitSegments (text : List Char) : List (List Char) :=
  (cutPieces text (markerPositions text)).filter
    (fun p => containsSeg orderIdLit p)

/-- Chunks the specification predicts: one per marker occurrence, each
starting at its marker and running to the next marker (or the end). -/
def segmentsSpec (text : List Char) : List (List Char) :=
  ((markerPositions text).zip ((markerPositions text).tail ++ [text.length])).map
    (fun ab => (text.drop ab.1).take (ab.2 - ab.1))

/-!
order_parser._extract_customization, gift part.

The regex
`Gift Note\s*&\s*Gift Bag:\s*(.*?)(?:Please CHECK for mistakes and spellings\.?:|$)`
either fails (no gift field in the block) or captures the field content,
which the code strips.  The function below is parameterised by that capture
(`none` = regex did not match), which covers every block the extractor can
see; the remaining logic is the translation of the source lines. -/

/-- Replace every whitespace run by one space (`re.sub(r"\s+", " ", ·)`);
the flag records whether the previous character was inside a run already
emitted as one space. -/
def collapseAux : Bool → List Char → List Char
  | _, [] => []
  | inRun, c :: rest =>
    if isSpacePy c then
      if inRun then collapseAux true rest else ' ' :: collapseAux true rest
    else c :: collapseAux false rest

/-- Replace every whitespace run by one space (`re.sub(r"\s+", " ", ·)`). -/
def collapseWsCore (l : List Char) : List Char :=
  collapseAux false l

/-- Whitespace collapse followed by `strip`, as applied to gift messages. -/
def collapseWs (l : List Char) : List Char :=
  pyStrip (collapseWsCore l)

/-- Regex `re.match(r"\s*no\b", s, re.IGNORECASE)` viewed as a Boolean. -/
def startsWithWordNo (s : List Char) : Bool :=
  match s.dropWhile isSpacePy with
  | c1 :: c2 :: rest =>
    c1.toLower == 'n' && c2.toLower == 'o' &&
      (match rest with
       | [] => true
       | c3 :: _ => !isWordChar c3)
  | _ => false

/-- Gift flag and gift message computed from the captured gift-field content
(`none` when the field regex found nothing, keeping the defaults). -/
def giftFrom (rawBlock : Option (List Char)) : List Char × List Char :=
  match rawBlock with
  | none => ("NO".toList, [])
  | some raw =>
    let raw := pyStrip raw
    if startsWithWordNo raw then ("NO".toList, [])
    else ("YES".toList, collapseWs raw)

/-- Specification-side reading of the gate: the (stripped) field content
begins with the word `no`, case-insensitively — two characters lowercasing
to `n`, `o`, followed by nothing or by a non-word character. -/
def beginsWithNoSpec (raw : List Char) : Prop :=
  ∃ c1 c2 rest, pyStrip raw = c1 :: c2 :: rest ∧
    c1.toLower = 'n' ∧ c2.toLower = 'o' ∧
    (rest = [] ∨ ∀ c ∈ rest.head?, isWordChar c = false)

/-!
shipping_parser._extract_label_from_page and helpers.extract_city_state_zip.
-/

/-- Optional regex fragment `-\d{4}`. -/
def ext4 : List Char → Option (List Char × List Char)
  | '-' :: d1 :: d2 :: d3 :: d4 :: rest =>
    if isDigit09 d1 && isDigit09 d2 && isDigit09 d3 && isDigit09 d4 then
      some (['-', d1, d2, d3, d4], rest)
    else none
  | _ => none

/-- Word boundary `\b` after a word character: end of input or a non-word
character next. -/
def boundaryOk : List Char → Bool
  | [] => true
  | c :: _ => !isWordChar c

/-- Regex `\d{5}(?:-\d{4})?\b` anchored at the front of the input, with the
matched text.  When the optional extension matches but the trailing boundary
fails, the engine backtracks to the bare five digits, whose own trailing
boundary (the dash) always holds. -/
def zipTokenFrom (t : List Char) : Option (List Char) :=
  match t with
  | c1 :: c2 :: c3 :: c4 :: c5 :: rest =>
    if isDigit09 c1 && isDigit09 c2 && isDigit09 c3 && isDigit09 c4 &&
        isDigit09 c5 then
      match ext4 rest with
      | some (ext, rest2) =>
        if boundaryOk rest2 then some ([c1, c2, c3, c4, c5] ++ ext)
        else some [c1, c2, c3, c4, c5]
      | none =>
        if boundaryOk rest then some [c1, c2, c3, c4, c5] else none
    else none
  | _ => none

/-- Search `re.search(r"\b\d{5}(?:-\d{4})?\b", line)`: the zip-candidate
test used to pick the city/state/zip line. -/
def hasZipToken (l : List Char) : Bool :=
  (List.range (l.length + 1)).any (fun i =>
    (decide (i = 0) || !isWordChar (l.getD (i - 1) ' ')) &&
      (zipTokenFrom (l.drop i)).isSome)

/-- Tail fragment `\s*([A-Z]{2})\s+(\d{5}(?:-\d{4})?)\b` of the
city/state/zip regexes, returning the state and zip captures.  Both
whitespace runs are maximal: an uppercase letter, respectively a digit,
follows them. -/
def cszTail (t : List Char) : Option (List Char × List Char) :=
  match t.dropWhile isSpacePy with
  | s1 :: s2 :: rest =>
    if isUpperAZ s1 && isUpperAZ s2 then
      match rest with
      | c :: _ =>
        if isSpacePy c then
          (zipTokenFrom (rest.dropWhile isSpacePy)).map
            (fun z => ([s1, s2], z))
        else none
      | [] => none
    else none
  | _ => none

/-- helpers.extract_city_state_zip: strip the line, try
`^(.*?),\s*([A-Z]{2})\s+(\d{5}(?:-\d{4})?)\b` (the lazy city group scans the
comma positions left to right), then the comma-free variant
`^(.*?)\s+([A-Z]{2})\s+(\d{5}(?:-\d{4})?)\b`, and return stripped captures,
or three empty strings when both fail. -/
def extractCityStateZip (line : List Char) :
    List Char × List Char × List Char :=
  let line := pyStrip line
  let tryComma := (List.range line.length).findSome? (fun i =>
    if line.getD i ' ' == ',' then
      (cszTail (line.drop (i + 1))).map
        (fun sz => (pyStrip (line.take i), sz.1, sz.2))
    else none)
  match tryComma with
  | some r => r
  | none =>
    let tryPlain := (List.range line.length).findSome? (fun i =>
      match line.drop i with
      | c :: rest =>
        if isSpacePy c then
          (cszTail (rest.dropWhile isSpacePy)).map
            (fun sz => (pyStrip (line.take i), sz.1, sz.2))
        else none
      | [] => none)
    match tryPlain with
    | some r => r
    | none => ([], [], [])

/-- Record extracted from one shipping-label page. -/
structure LabelRec where
  recipient_name : List Char
  address_line1 : List Char
  city : List Char
  state : List Char
  zip : List Char
  deriving Repr, DecidableEq

/-- shipping_parser._extract_label_from_page, over the lines of the page
text (`text.splitlines()`). -/
def extractLabelFromPage (textLines : List (List Char)) : Option LabelRec :=
  let lines := textLines.map pyStrip
  let nonEmpty := lines.filter (fun l => !l.isEmpty)
  if nonEmpty.length < 3 then none
  else
    let recipient := nonEmpty.getD 0 []
    let addr1 := nonEmpty.getD 1 []
    let cszLine := ((nonEmpty.take 10).find? hasZipToken).getD []
    let csz := extractCityStateZip cszLine
    if csz.2.2.isEmpty then none
    else some ⟨recipient, addr1, csz.1, csz.2.1, csz.2.2⟩

/-!
csv_generator.expand_by_quantity.

A cell of the `quantity` column may hold a number, a missing value (NaN or
None) or an arbitrary string; `fillna(1)` replaces missing values, and
`astype(int)` converts the column, parsing numeric strings and raising
`ValueError` on any non-numeric one.  `df.index.repeat` then raises on a
negative count, and otherwise `df.loc[...]` emits, in row order, each row
repeated its count many times (the frames here carry the default range
index).  Errors are modelled with `Except`.
-/

/-- One cell of the quantity column. -/
inductive QVal where
  | num (n : Int)
  | nan
  | str (s : List Char)
  deriving Repr, DecidableEq

/-- One row of the orders frame as the generator sees it: the quantity cell
plus the remaining field values, untouched by the expansion. -/
structure CsvRow where
  quantity : QVal
  fields : List (List Char)
  deriving Repr, DecidableEq

/-- Pandas `fillna(1)` on one quantity cell. -/
def fillnaQ : QVal → QVal
  | .nan => .num 1
  | v => v

/-- Python `int(...)` on a string: optional surrounding whitespace, optional
sign, at least one digit. -/
def parseIntPy (s : List Char) : Option Int :=
  let digitsToNat : List Char → Option Nat := fun ds =>
    if ds.isEmpty || !ds.all isDigit09 then none
    else some (ds.foldl (fun acc c => 10 * acc + digitVal c) 0)
  match pyStrip s with
  | '+' :: ds => (digitsToNat ds).map Int.ofNat
  | '-' :: ds => (digitsToNat ds).map (fun n => -(n : Int))
  | ds => (digitsToNat ds).map Int.ofNat

/-- Pandas `astype(int)` on one quantity cell (`nan` never survives the
preceding `fillna`; on it the column conversion would also raise). -/
def astypeIntQ : QVal → Option Int
  | .num n => some n
  | .nan => none
  | .str s => parseIntPy s

/-- Integer the expansion uses for a row, after `fillna(1).astype(int)`. -/
def qOf (r : CsvRow) : Option Int :=
  astypeIntQ (fillnaQ r.quantity)

/-- Column conversion `astype(int)`: every cell must convert, and the
converted value is written back to the row. -/
def colAsType : List CsvRow → Option (List (Int × CsvRow))
  | [] => some []
  | r :: rs =>
    match qOf r, colAsType rs with
    | some q, some rest => some ((q, { r with quantity := .num q }) :: rest)
    | _, _ => none

/-- csv_generator.expand_by_quantity. -/
def expandByQuantity (rows : List CsvRow) : Except (List Char) (List CsvRow) :=
  if rows.isEmpty then .ok rows
  else
    match colAsType rows with
    | none => .error "invalid literal for int".toList
    | some qrows =>
      if qrows.any (fun p => p.1 < 0) then
        .error "negative dimensions are not allowed".toList
      else .ok (qrows.flatMap (fun p => List.replicate p.1.toNat p.2))

/-- Expansion the specification predicts on well-formed rows: each row
repeated its coerced quantity many times, in order, quantity column
normalised to the coerced integer. -/
def expandSpec (rows : List CsvRow) : List CsvRow :=
  rows.flatMap (fun r =>
    List.replicate ((qOf r).getD 1).toNat
      { r with quantity := .num ((qOf r).getD 1) })

/-- Decidable well-formedness of the quantity column: every cell converts and
no converted value is negative. -/
def validQCol (rows : List CsvRow) : Bool :=
  rows.all (fun r => match qOf r with
    | some q => decide (0 ≤ q)
    | none => false)

/-!
Concrete data used by witnesses and counterexamples.
-/

/-- First argument of the fuzzy-equality asymmetry counterexample (already in
normalized form: lowercase alphanumeric). -/
def fuzzyA : List Char := "acbaba".toList

/-- Second argument of the fuzzy-equality asymmetry counterexample. -/
def fuzzyB : List Char := "abab".toList

/-- Sample order row. -/
def orderW1 : OrderRow :=
  ⟨"111-0000001-0000001".toList, "John Smith".toList,
    some "1 Main St".toList, some "12345".toList⟩

/-- Second sample order row, distinct from the first, shipping to the same
label. -/
def orderW2 : OrderRow :=
  ⟨"222-0000002-0000002".toList, "Jon Smith".toList,
    some "1  Main  St.".toList, some "12345".toList⟩

/-- Sample label row qualifying for both sample orders. -/
def labelW : LabelRow :=
  ⟨"pdf0_page_0".toList, "John Smith".toList,
    some "1 Main St".toList, some "12345".toList⟩

/-- Sample two-marker document for the segmentation witness. -/
def segTextW : List Char :=
  ("Order ID: 123-1234567-1234567\nItem A\n" ++
   "Order ID: 111-2222222-3333333\nItem B").toList

/-- Zero-marker document that still contains the bare literal
`Order ID:` (no 3-7-7 number follows it). -/
def zeroMarkerTextW : List Char := "Order ID: junk".toList

/-- Row whose quantity cell holds a non-numeric string. -/
def badQtyRow : CsvRow := ⟨.str "abc".toList, ["x".toList]⟩

/-- Sample accepted label page. -/
def pageW : List (List Char) :=
  ["John Doe".toList, "1 Main St".toList, "Town, NY 12345".toList]

/-- Record extracted from `pageW`. -/
def pageRecW : LabelRec :=
  ⟨"John Doe".toList, "1 Main St".toList, "Town".toList, "NY".toList,
    "12345".toList⟩

/-- Conditions of normalize_board_type, bundled: true when none of the three
classification rules fires, so the stripped raw text falls through. -/
def noBoardRule (raw : List Char) : Bool :=
  let lower := toLowerStr (pyStrip raw)
  !containsSeg "no engraving".toList lower &&
    !(containsSeg "board only".toList lower &&
      !containsSeg "utensil".toList lower) &&
    !(utensilVariants.any (fun k => containsSeg k lower))

/-!
General lemmas about the string primitives.
-/

theorem dropWhile_dropWhile (p : Char → Bool) (l : List Char) :
    (l.dropWhile p).dropWhile p = l.dropWhile p := by
  induction l with
  | nil => rfl
  | cons c t ih =>
    by_cases h : p c <;> simp [List.dropWhile_cons, h, ih]

theorem dropWhile_fix_of_prefix (p : Char → Bool) {s m : List Char}
    (hp : s <+: m) (hm : m.dropWhile p = m) : s.dropWhile p = s := by
  cases s with
  | nil => rfl
  | cons c t =>
    cases m with
    | nil => simp at hp
    | cons c' t' =>
      obtain ⟨hc, -⟩ := (List.cons_prefix_cons).1 hp
      subst hc
      by_cases h : p c
      · rw [List.dropWhile_cons, if_pos h] at hm
        have hlen := congrArg List.length hm
        have := (List.dropWhile_sublist (l := t') p).length_le
        simp at hlen
        omega
      · simp [List.dropWhile_cons, h]

theorem stripEnd_prefixOf (m : List Char) : stripEnd m <+: m := by
  have hsuf : m.reverse.dropWhile isSpacePy <:+ m.reverse :=
    List.dropWhile_suffix _
  unfold stripEnd
  obtain ⟨u, hu⟩ := hsuf
  exact ⟨u.reverse, by
    have hm : (u ++ m.reverse.dropWhile isSpacePy).reverse = m := by
      rw [hu, List.reverse_reverse]
    simpa [List.reverse_append] using hm⟩

theorem pyStrip_front_clean (l : List Char) :
    (pyStrip l).dropWhile isSpacePy = pyStrip l := by
  unfold pyStrip
  exact dropWhile_fix_of_prefix isSpacePy
    (stripEnd_prefixOf (l.dropWhile isSpacePy)) (dropWhile_dropWhile _ _)

theorem stripEnd_idem (m : List Char) : stripEnd (stripEnd m) = stripEnd m := by
  unfold stripEnd
  rw [List.reverse_reverse, dropWhile_dropWhile]

theorem pyStrip_idem (l : List Char) : pyStrip (pyStrip l) = pyStrip l := by
  conv_lhs => rw [pyStrip]
  rw [pyStrip_front_clean]
  unfold pyStrip
  rw [stripEnd_idem]

/-!
Claim C6: symmetry of fuzzy_equal.
-/

set_option maxRecDepth 8000 in
/-- Claim C6, counterexample: `fuzzy_equal` is not symmetric.  On the
(already normalized) pair `acbaba` / `abab`, the matcher finds the blocks
`a` and `aba` in one argument order (total match 4, ratio 8/10 = 0.8, which
meets the threshold) but only the single block `aba` in the other (total
match 3, ratio 6/10), because `find_longest_match` resolves ties between
equally long blocks towards the earliest position in its first argument. -/
theorem fuzzyEqual_not_symmetric :
    fuzzyEqual fuzzyA fuzzyB = true ∧ fuzzyEqual fuzzyB fuzzyA = false := by
  constructor <;> decide

/-- Claim C6, amended: the spec claims `fuzzy_equal(a,b) = fuzzy_equal(b,a)`
for all strings; the tie-breaking of `SequenceMatcher` refutes that, and the
symmetry does hold whenever the two normalized strings coincide, or either
normalizes to empty (then both directions are False). -/
theorem fuzzyEqual_symm_of_norm (a b : List Char)
    (h : normalizeForMatch a = normalizeForMatch b ∨
      normalizeForMatch a = [] ∨ normalizeForMatch b = []) :
    fuzzyEqual a b = fuzzyEqual b a := by
  rcases h with h | h | h
  · unfold fuzzyEqual
    rw [h]
  · unfold fuzzyEqual
    rw [h]
    simp
  · unfold fuzzyEqual
    rw [h]
    simp

/-- Witness for the amended C6 theorem at concrete inputs whose normalized
forms coincide. -/
theorem fuzzyEqual_symm_of_norm_witness :
    fuzzyEqual "Ann".toList "ann!".toList =
      fuzzyEqual "ann!".toList "Ann".toList :=
  fuzzyEqual_symm_of_norm _ _ (Or.inl (by decide))

/-!
Claim C7: idempotence and fall-through of normalize_board_type.
-/

theorem noBoardRule_pyStrip (raw : List Char) :
    noBoardRule (pyStrip raw) = noBoardRule raw := by
  unfold noBoardRule
  rw [pyStrip_idem]

theorem normalizeBoardType_fallthrough (raw : List Char)
    (h : noBoardRule raw = true) :
    normalizeBoardType raw = pyStrip raw := by
  unfold noBoardRule at h
  simp only [Bool.and_eq_true, Bool.not_eq_true'] at h
  obtain ⟨⟨h1, h2⟩, h3⟩ := h
  simp only [normalizeBoardType]
  split_ifs with hA hB hC hD
  · exact ((List.isEmpty_iff).1 hA).symm
  · rw [h1] at hB; exact absurd hB Bool.false_ne_true
  · rw [h2] at hC; exact absurd hC Bool.false_ne_true
  · rw [h3] at hD; exact absurd hD Bool.false_ne_true
  · rfl

theorem normalizeBoardType_characterization (raw : List Char) :
    normalizeBoardType raw = "No Engraving".toList ∨
    normalizeBoardType raw = "Board Only".toList ∨
    normalizeBoardType raw = "Board+Utensils Engraving".toList ∨
    normalizeBoardType raw = [] ∨
    (noBoardRule raw = true ∧ normalizeBoardType raw = pyStrip raw) := by
  by_cases h : noBoardRule raw = true
  · exact Or.inr (Or.inr (Or.inr (Or.inr
      ⟨h, normalizeBoardType_fallthrough raw h⟩)))
  · unfold noBoardRule at h
    simp only [Bool.and_eq_true, Bool.not_eq_true', not_and_or] at h
    simp only [normalizeBoardType]
    split_ifs with hA hB hC hD
    · exact Or.inr (Or.inr (Or.inr (Or.inl rfl)))
    · exact Or.inl rfl
    · exact Or.inr (Or.inl rfl)
    · exact Or.inr (Or.inr (Or.inl rfl))
    · exfalso
      simp only [Bool.not_eq_false] at h
      rcases h with (h | h) | h
      · exact hB h
      · exact hC h
      · exact hD h

/-- Claim C7, counterexample: when no classification rule matches, the
function returns the stripped raw text, not the original raw text --- on the
input with surrounding whitespace below, no rule matches and the output
differs from the input. -/
theorem normalizeBoardType_not_raw :
    normalizeBoardType "  mystery item  ".toList ≠ "  mystery item  ".toList := by
  decide

/-- Claim C7, amended: board-type normalization is idempotent, canonical
outputs are fixed points, and when no classification rule matches the
whitespace-stripped raw text is returned (equal to the original exactly when
the original carries no surrounding whitespace). -/
theorem normalizeBoardType_idem :
    (∀ raw, normalizeBoardType (normalizeBoardType raw) =
      normalizeBoardType raw) ∧
    (∀ c ∈ ["No Engraving".toList, "Board Only".toList,
        "Board+Utensils Engraving".toList], normalizeBoardType c = c) ∧
    (∀ raw, noBoardRule raw = true → normalizeBoardType raw = pyStrip raw) := by
  refine ⟨?_, ?_, normalizeBoardType_fallthrough⟩
  · intro raw
    rcases normalizeBoardType_characterization raw with h | h | h | h | ⟨hr, h⟩
    · rw [h]; decide
    · rw [h]; decide
    · rw [h]; decide
    · rw [h]; decide
    · rw [h, normalizeBoardType_fallthrough _ ((noBoardRule_pyStrip raw).trans hr),
        pyStrip_idem]
  · intro c hc
    fin_cases hc <;> decide

/-- Witness for the amended C7 theorem: idempotence, a canonical fixed
point, and the fall-through, each at a concrete input. -/
theorem normalizeBoardType_idem_witness :
    normalizeBoardType (normalizeBoardType "  walnut board x ".toList) =
      normalizeBoardType "  walnut board x ".toList ∧
    normalizeBoardType "Board Only".toList = "Board Only".toList ∧
    normalizeBoardType "custom text".toList = pyStrip "custom text".toList :=
  ⟨normalizeBoardType_idem.1 _,
   normalizeBoardType_idem.2.1 _ (by simp),
   normalizeBoardType_idem.2.2 _ (by decide)⟩

/-!
Claims C3 and C10: expand_by_quantity.
-/

theorem colAsType_of_valid :
    ∀ rows : List CsvRow, validQCol rows = true →
      colAsType rows = some (rows.map (fun r =>
        ((qOf r).getD 1, { r with quantity := .num ((qOf r).getD 1) }))) := by
  intro rows h
  induction rows with
  | nil => rfl
  | cons r rs ih =>
    rw [validQCol, List.all_cons, Bool.and_eq_true] at h
    obtain ⟨hr, hrs⟩ := h
    cases hq : qOf r with
    | none => rw [hq] at hr; exact absurd hr Bool.false_ne_true
    | some q =>
      rw [colAsType, hq, ih hrs]
      simp [hq]

theorem rows_nonneg_of_valid {rows : List CsvRow}
    (h : validQCol rows = true) :
    ∀ r ∈ rows, 0 ≤ (qOf r).getD 1 := by
  intro r hr
  rw [validQCol, List.all_eq_true] at h
  have := h r hr
  cases hq : qOf r with
  | none => rw [hq] at this; exact absurd this Bool.false_ne_true
  | some q => rw [hq] at this; simpa using this

theorem expand_of_valid (rows : List CsvRow) (h : validQCol rows = true) :
    expandByQuantity rows = .ok (expandSpec rows) := by
  unfold expandByQuantity
  by_cases hre : rows.isEmpty
  · rw [List.isEmpty_iff] at hre
    subst hre
    simp [expandSpec]
  · simp only [hre, if_false, Bool.false_eq_true]
    rw [colAsType_of_valid rows h]
    have hneg : ((rows.map (fun r =>
        ((qOf r).getD 1, { r with quantity := QVal.num ((qOf r).getD 1) }))).any
          (fun p => decide (p.1 < 0))) = false := by
      rw [List.any_eq_false]
      intro p hp
      rw [List.mem_map] at hp
      obtain ⟨r, hr, rfl⟩ := hp
      have := rows_nonneg_of_valid h r hr
      simpa using this
    simp only [hneg, if_false, Bool.false_eq_true]
    rw [List.flatMap_map]
    rfl

/-- Claim C3, counterexample: a quantity cell holding the non-numeric string
`abc` makes `astype(int)` raise, so the expansion errors out instead of
defaulting that row to one copy as the claim states. -/
theorem expand_nonnumeric_raises :
    expandByQuantity [badQtyRow] = .error "invalid literal for int".toList ∧
    expandByQuantity [badQtyRow] ≠
      .ok [{ badQtyRow with quantity := .num 1 }] := by
  have h1 : expandByQuantity [badQtyRow] =
      .error "invalid literal for int".toList := rfl
  refine ⟨h1, ?_⟩
  rw [h1]
  intro h
  exact Except.noConfusion h

/-- Claim C3, amended: on rows whose quantity cells all convert (integers,
numeric strings, or missing values defaulting to 1) to a non-negative count,
expansion duplicates each row exactly its coerced-quantity many times, in
row order, all other fields unchanged; a single record of quantity q at
least 1 becomes exactly q identical rows.  (Rows with a non-numeric quantity
string raise instead of defaulting to 1, and negative counts raise in
`repeat`.) -/
theorem expand_by_quantity_spec :
    (∀ rows, validQCol rows = true →
      expandByQuantity rows = .ok (expandSpec rows)) ∧
    (∀ (q : Int) (fs : List (List Char)), 1 ≤ q →
      expandByQuantity [⟨QVal.num q, fs⟩] =
        .ok (List.replicate q.toNat ⟨QVal.num q, fs⟩)) := by
  refine ⟨expand_of_valid, ?_⟩
  intro q fs hq
  have hv : validQCol [⟨QVal.num q, fs⟩] = true := by
    simp [validQCol, qOf, fillnaQ, astypeIntQ]
    omega
  rw [expand_of_valid _ hv]
  simp [expandSpec, qOf, fillnaQ, astypeIntQ]

/-- Witness for the amended C3 theorem: a two-row frame with an integer and
a missing quantity, and a single record of quantity 3. -/
theorem expand_by_quantity_spec_witness :
    expandByQuantity [⟨QVal.num 2, [['a']]⟩, ⟨QVal.nan, [['b']]⟩] =
      .ok [⟨QVal.num 2, [['a']]⟩, ⟨QVal.num 2, [['a']]⟩,
        ⟨QVal.num 1, [['b']]⟩] ∧
    expandByQuantity [⟨QVal.num 3, [['c']]⟩] =
      .ok (List.replicate 3 ⟨QVal.num 3, [['c']]⟩) :=
  ⟨by rw [expand_by_quantity_spec.1 _ (by decide)]; rfl,
   by rw [expand_by_quantity_spec.2 3 [['c']] (by decide)]; rfl⟩

/-- Claim C10: a row whose quantity cell holds the integer 0 contributes
zero copies — it is silently dropped from the expanded collection, not
defaulted to one copy; in general each row is duplicated exactly its stored
integer quantity many times, including below 1. -/
theorem expand_zero_quantity (pre post : List CsvRow) (fs : List (List Char))
    (h : validQCol (pre ++ post) = true) :
    expandByQuantity (pre ++ ⟨QVal.num 0, fs⟩ :: post) =
      expandByQuantity (pre ++ post) ∧
    expandByQuantity [⟨QVal.num 0, fs⟩] = .ok [] := by
  have hall := h
  rw [validQCol, List.all_append, Bool.and_eq_true] at hall
  obtain ⟨hpre, hpost⟩ := hall
  have hz : validQCol (pre ++ ⟨QVal.num 0, fs⟩ :: post) = true := by
    rw [validQCol, List.all_append, List.all_cons]
    simp only [Bool.and_eq_true]
    exact ⟨hpre, rfl, hpost⟩
  constructor
  · rw [expand_of_valid _ hz, expand_of_valid _ h]
    unfold expandSpec
    simp [qOf, fillnaQ, astypeIntQ, List.flatMap_append, List.flatMap_cons]
  · rfl

/-- Witness for the C10 theorem: the zero-quantity row between two ordinary
rows disappears from the expansion. -/
theorem expand_zero_quantity_witness :
    expandByQuantity [⟨QVal.num 1, [['a']]⟩, ⟨QVal.num 0, [['z']]⟩,
        ⟨QVal.num 2, [['b']]⟩] =
      expandByQuantity [⟨QVal.num 1, [['a']]⟩, ⟨QVal.num 2, [['b']]⟩] ∧
    expandByQuantity [⟨QVal.num 0, [['z']]⟩] = .ok [] := by
  have := expand_zero_quantity [⟨QVal.num 1, [['a']]⟩] [⟨QVal.num 2, [['b']]⟩]
    [['z']] (by decide)
  simpa using this

/-!
Claims C1 and C9: match_orders_to_labels.
-/

theorem qualifiesSpec_eq (o : OrderRow) (lab : LabelRow) :
    qualifiesSpec o lab =
      ((!(ordNormZip o).isEmpty && ordNormZip o == labNormZip lab) &&
        ((!(ordNormAddr1 o).isEmpty && ordNormAddr1 o == labNormAddr1 lab) &&
          fuzzyEqual o.ship_to_name lab.recipient_name)) := by
  unfold qualifiesSpec
  by_cases hz : (ordNormZip o == labNormZip lab) = true
  · rw [← beq_iff_eq.1 hz]
    by_cases ha : (ordNormAddr1 o == labNormAddr1 lab) = true
    · rw [← beq_iff_eq.1 ha]
      cases (ordNormZip o).isEmpty <;> cases (ordNormAddr1 o).isEmpty <;> simp
    · simp only [Bool.not_eq_true] at ha
      rw [ha]
      simp
  · simp only [Bool.not_eq_true] at hz
    rw [hz]
    simp

theorem matchOne_cons (o : OrderRow) (lab : LabelRow) (rest : List LabelRow) :
    matchOne o (lab :: rest) =
      if qualifiesSpec o lab = true then (lab.label_id, matchedStatus)
      else matchOne o rest := by
  rw [matchOne, qualifiesSpec_eq]
  cases h1 : (!(ordNormZip o).isEmpty && ordNormZip o == labNormZip lab) <;>
    cases h2 : (!(ordNormAddr1 o).isEmpty &&
      ordNormAddr1 o == labNormAddr1 lab) <;>
      cases h3 : fuzzyEqual o.ship_to_name lab.recipient_name <;>
        simp [h1, h2, h3]

theorem matchOne_eq_find (o : OrderRow) (labels : List LabelRow) :
    matchOne o labels =
      match labels.find? (fun lab => qualifiesSpec o lab) with
      | some lab => (lab.label_id, matchedStatus)
      | none => ([], missingStatus) := by
  induction labels with
  | nil => rfl
  | cons lab rest ih =>
    rw [matchOne_cons, List.find?_cons]
    cases h : qualifiesSpec o lab <;> simp [h, ih]

theorem annotate_of_matchOne (labels : List LabelRow) (o : OrderRow) :
    (o, matchOne o labels) = annotateSpec labels o := by
  rw [matchOne_eq_find]
  simp only [annotateSpec]
  cases hf : labels.find? (fun lab => qualifiesSpec o lab) <;> simp

/-- Claim C1: the matcher annotates every order with the identifier of the
first label, in list order, whose postal code is non-empty and identical to
the order one, whose normalized address line 1 (lowercased, non-alphanumeric
characters stripped) is non-empty and identical, and whose recipient name is
fuzzy-equal to the order one; the scan stops at that first qualifying label,
and an order with no qualifying label gets status Missing and an empty
matched identifier. -/
theorem matcher_first_match (orders : List OrderRow) (labels : List LabelRow) :
    matchOrdersToLabels orders labels = orders.map (annotateSpec labels) := by
  unfold matchOrdersToLabels
  by_cases ho : orders.isEmpty
  · rw [List.isEmpty_iff] at ho
    subst ho
    simp
  · by_cases hl : labels.isEmpty
    · rw [List.isEmpty_iff] at hl
      subst hl
      simp [annotateSpec, List.find?_nil]
    · simp only [Bool.not_eq_true] at ho hl
      simp only [ho, hl, Bool.false_or, Bool.false_eq_true, if_false]
      exact List.map_congr_left (fun o _ => annotate_of_matchOne labels o)

/-- Claim C9: each order is matched against the full label collection
independently --- a matched label is not consumed, so two distinct orders
qualifying for the same label (with no earlier qualifying label for either)
both receive that label identifier, and the label rows are never altered
(the function only reads them). -/
theorem matcher_label_not_consumed (o1 o2 : OrderRow) (rest : List OrderRow)
    (labels : List LabelRow) (lab : LabelRow)
    (h1 : labels.find? (fun l => qualifiesSpec o1 l) = some lab)
    (h2 : labels.find? (fun l => qualifiesSpec o2 l) = some lab) :
    matchOrdersToLabels (o1 :: o2 :: rest) labels =
      (o1, lab.label_id, matchedStatus) :: (o2, lab.label_id, matchedStatus) ::
        rest.map (annotateSpec labels) := by
  have hlab : labels.isEmpty = false := by
    cases labels
    · simp [List.find?] at h1
    · rfl
  unfold matchOrdersToLabels
  simp only [hlab, List.isEmpty_cons, Bool.false_or, Bool.false_eq_true,
    if_false, List.map_cons]
  rw [annotate_of_matchOne, annotate_of_matchOne]
  simp only [annotateSpec, h1, h2]
  exact congrArg₂ List.cons rfl (congrArg₂ List.cons rfl
    (List.map_congr_left (fun o _ => annotate_of_matchOne labels o)))

set_option maxRecDepth 20000 in
/-- Witness for the C9 theorem: two distinct orders, both qualifying for the
single label of the collection, are both annotated with it. -/
theorem matcher_label_not_consumed_witness :
    matchOrdersToLabels [orderW1, orderW2] [labelW] =
      [(orderW1, labelW.label_id, matchedStatus),
       (orderW2, labelW.label_id, matchedStatus)] := by
  have := matcher_label_not_consumed orderW1 orderW2 [] [labelW] labelW
    (by decide) (by decide)
  simpa using this

/-!
Claim C4: the gift gate of _extract_customization.
-/

theorem startsWithWordNo_iff (raw : List Char) :
    startsWithWordNo (pyStrip raw) = true ↔ beginsWithNoSpec raw := by
  unfold startsWithWordNo beginsWithNoSpec
  rw [pyStrip_front_clean]
  cases h : pyStrip raw with
  | nil => simp
  | cons c1 t =>
    cases t with
    | nil => simp
    | cons c2 rest =>
      constructor
      · intro hb
        simp only [Bool.and_eq_true, beq_iff_eq] at hb
        obtain ⟨⟨hn, ho⟩, hbnd⟩ := hb
        refine ⟨c1, c2, rest, rfl, hn, ho, ?_⟩
        cases rest with
        | nil => exact Or.inl rfl
        | cons c3 r =>
          right
          intro c hc
          simp only [List.head?_cons, Option.mem_def, Option.some.injEq] at hc
          subst hc
          simpa using hbnd
      · rintro ⟨c1', c2', rest', heq, hn, ho, hbnd⟩
        obtain ⟨rfl, rfl, rfl⟩ : c1 = c1' ∧ c2 = c2' ∧ rest = rest' := by
          injection heq with e1 e2
          injection e2 with e2 e3
          exact ⟨e1, e2, e3⟩
        simp only [Bool.and_eq_true, beq_iff_eq]
        refine ⟨⟨hn, ho⟩, ?_⟩
        cases rest with
        | nil => rfl
        | cons c3 r =>
          rcases hbnd with h | h
          · exact absurd h (by simp)
          · have := h c3 (by simp)
            simpa using this

/-- Claim C4: the extracted gift-field content yields flag NO with an empty
message when it begins with the word `no` case-insensitively, and otherwise
flag YES with the whitespace-collapsed content as the message; consequently
every record satisfies the invariant that the gift message is non-empty only
when the gift flag is YES (the no-field default also satisfies it). -/
theorem gift_gate_spec (raw : List Char) :
    ((beginsWithNoSpec raw → giftFrom (some raw) = ("NO".toList, [])) ∧
     (¬ beginsWithNoSpec raw →
       giftFrom (some raw) = ("YES".toList, collapseWs (pyStrip raw)))) ∧
    (∀ b : Option (List Char), (giftFrom b).2 ≠ [] →
      (giftFrom b).1 = "YES".toList) := by
  refine ⟨⟨?_, ?_⟩, ?_⟩
  · intro h
    simp only [giftFrom]
    rw [if_pos ((startsWithWordNo_iff raw).2 h)]
  · intro h
    simp only [giftFrom]
    rw [if_neg (fun hb => h ((startsWithWordNo_iff raw).1 hb))]
  · intro b hb
    cases b with
    | none => simp [giftFrom] at hb
    | some raw' =>
      simp only [giftFrom] at hb ⊢
      by_cases hs : startsWithWordNo (pyStrip raw') = true
      · rw [if_pos hs] at hb
        simp at hb
      · rw [if_neg hs] at hb ⊢

/-- Witness for the C4 theorem: the spec scenario content `No thanks,` (flag
NO, empty message), a YES content with its collapsed message, and the
invariant at a YES record. -/
theorem gift_gate_spec_witness :
    giftFrom (some "No thanks,".toList) = ("NO".toList, []) ∧
    giftFrom (some "Note: congrats".toList) =
      ("YES".toList, collapseWs (pyStrip "Note: congrats".toList)) ∧
    (giftFrom (some "happy day".toList)).1 = "YES".toList :=
  ⟨(gift_gate_spec "No thanks,".toList).1.1
      ⟨'N', 'o', " thanks,".toList, by decide, by decide, by decide,
        Or.inr (by decide)⟩,
   (gift_gate_spec "Note: congrats".toList).1.2
      (fun h => absurd ((startsWithWordNo_iff _).2 h) (by decide)),
   (gift_gate_spec "happy day".toList).2 (some "happy day".toList)
      (by decide)⟩

/-!
Claim C5: every extracted shipping label carries a postal code.
-/

/-- Claim C5: every record produced by the label extractor has a non-empty
postal code; a page with fewer than 3 non-empty (stripped) lines is
rejected, and a page in whose first 10 non-empty lines no line parses into
city/state/zip is rejected entirely. -/
theorem label_requires_zip (lines : List (List Char)) :
    (∀ rec, extractLabelFromPage lines = some rec → rec.zip ≠ []) ∧
    (((lines.map pyStrip).filter (fun l => !l.isEmpty)).length < 3 →
      extractLabelFromPage lines = none) ∧
    ((∀ l ∈ ((lines.map pyStrip).filter (fun l => !l.isEmpty)).take 10,
        (extractCityStateZip l).2.2 = []) →
      extractLabelFromPage lines = none) := by
  simp only [extractLabelFromPage]
  by_cases h3 :
      ((lines.map pyStrip).filter (fun l => !l.isEmpty)).length < 3
  · rw [if_pos h3]
    exact ⟨fun rec h => absurd h (by simp), fun _ => rfl, fun _ => rfl⟩
  · rw [if_neg h3]
    refine ⟨?_, fun hlt => absurd hlt h3, ?_⟩
    · intro rec h
      split at h
      · exact absurd h (by simp)
      · injection h with h2
        rw [← h2]
        intro hz
        rename_i hcond
        exact hcond ((List.isEmpty_iff).2 hz)
    · intro hall
      cases hf : (((lines.map pyStrip).filter
          (fun l => !l.isEmpty)).take 10).find? hasZipToken with
      | none => rfl
      | some l =>
        have hz := hall l (List.mem_of_find?_eq_some hf)
        simp only [Option.getD_some]
        rw [if_pos ((List.isEmpty_iff).2 hz)]

/-- Witness for the C5 theorem: an accepted page (non-empty zip), a
two-line page (rejected), and a page whose only zip-free lines cannot be
parsed (rejected). -/
theorem label_requires_zip_witness :
    pageRecW.zip ≠ [] ∧
    extractLabelFromPage ["ab".toList, "cd".toList] = none ∧
    extractLabelFromPage ["alpha".toList, "beta".toList, "gamma".toList] =
      none :=
  ⟨(label_requires_zip pageW).1 pageRecW (by decide),
   (label_requires_zip ["ab".toList, "cd".toList]).2.1 (by decide),
   (label_requires_zip
      ["alpha".toList, "beta".toList, "gamma".toList]).2.2 (by decide)⟩

/-!
Claim C2: _split_segments.
-/

theorem dropLit_eq_append {lit l r : List Char} (h : dropLit lit l = some r) :
    l = lit ++ r := by
  induction lit generalizing l with
  | nil =>
    simp only [dropLit, Option.some.injEq] at h
    simp [h]
  | cons c cs ih =>
    cases l with
    | nil => simp [dropLit] at h
    | cons x xs =>
      rw [dropLit] at h
      by_cases hx : (x == c) = true
      · rw [if_pos hx] at h
        rw [beq_iff_eq] at hx
        subst hx
        rw [List.cons_append, ih h]
      · rw [if_neg hx] at h
        simp at h

theorem markerFrom_append {l : List Char} (h : markerFrom l = true) :
    ∃ r, l = orderIdLit ++ r := by
  unfold markerFrom at h
  cases hd : dropLit orderIdLit l with
  | none => rw [hd] at h; simp at h
  | some r1 => exact ⟨r1, dropLit_eq_append hd⟩

theorem markerFrom_length {l : List Char} (h : markerFrom l = true) :
    9 ≤ l.length := by
  obtain ⟨r, rfl⟩ := markerFrom_append h
  simp [orderIdLit]

theorem markerFrom_ne_of_shift {l : List Char} (h : markerFrom l = true) :
    ∀ k, 1 ≤ k → k ≤ 8 → markerFrom (l.drop k) = false := by
  obtain ⟨r, rfl⟩ := markerFrom_append h
  intro k h1 h8
  by_contra hc
  rw [Bool.not_eq_false] at hc
  obtain ⟨r2, he⟩ := markerFrom_append hc
  rw [List.drop_append_of_le_length (by simp [orderIdLit]; omega)] at he
  have hh := congrArg List.head? he
  interval_cases k <;> simp [orderIdLit] at hh

theorem mem_markerPositions {text : List Char} {i : Nat} :
    i ∈ markerPositions text ↔
      i < text.length ∧ markerFrom (text.drop i) = true := by
  unfold markerPositions
  rw [List.mem_filter, List.mem_range]

theorem markerPositions_sorted (text : List Char) :
    (markerPositions text).Pairwise (· < ·) :=
  (List.pairwise_lt_range _).filter _

theorem markerPositions_gap (text : List Char) {p q : Nat}
    (hp : p ∈ markerPositions text) (hq : q ∈ markerPositions text)
    (hlt : p < q) : p + 9 ≤ q := by
  by_contra hc
  push_neg at hc
  have hmp := (mem_markerPositions.1 hp).2
  have hmq := (mem_markerPositions.1 hq).2
  have hk : text.drop q = (text.drop p).drop (q - p) := by
    rw [List.drop_drop]
    congr 1
    omega
  have hne := markerFrom_ne_of_shift hmp (q - p) (by omega) (by omega)
  rw [← hk, hmq] at hne
  exact absurd hne (by decide)

theorem markerPositions_head {text : List Char} (h : markerFrom text = true) :
    ∃ rest, markerPositions text = 0 :: rest := by
  have h0 : 0 ∈ markerPositions text := by
    rw [mem_markerPositions]
    have h9 := markerFrom_length h
    exact ⟨by omega, by simpa using h⟩
  cases hps : markerPositions text with
  | nil => rw [hps] at h0; simp at h0
  | cons x rest =>
    have hsort := markerPositions_sorted text
    rw [hps] at hsort h0
    rcases List.mem_cons.1 h0 with h0 | h0
    · exact ⟨rest, by rw [← h0]⟩
    · have := (List.pairwise_cons.1 hsort).1 0 h0
      omega

theorem mem_zip_tail (len : Nat) :
    ∀ ps : List Nat, ps.Pairwise (· < ·) → ∀ a b : Nat,
      (a, b) ∈ ps.zip (ps.tail ++ [len]) →
      a ∈ ps ∧ (b ∈ ps ∧ a < b ∨ b = len) := by
  intro ps
  induction ps with
  | nil => intro _ a b hm; simp at hm
  | cons p rest ih =>
    intro hp a b hm
    cases rest with
    | nil =>
      simp only [List.tail_cons, List.nil_append, List.zip_cons_cons,
        List.zip_nil_right, List.mem_singleton, Prod.mk.injEq] at hm
      exact ⟨by simp [hm.1], Or.inr hm.2⟩
    | cons q rest2 =>
      simp only [List.tail_cons, List.cons_append, List.zip_cons_cons,
        List.mem_cons, Prod.mk.injEq] at hm
      rcases hm with ⟨rfl, rfl⟩ | hm
      · refine ⟨by simp, Or.inl ⟨by simp, ?_⟩⟩
        exact (List.pairwise_cons.1 hp).1 b (by simp)
      · have := ih (List.pairwise_cons.1 hp).2 a b (by
          simpa [List.tail_cons] using hm)
        refine ⟨List.mem_cons_of_mem _ this.1, ?_⟩
        rcases this.2 with ⟨hb, hab⟩ | rfl
        · exact Or.inl ⟨List.mem_cons_of_mem _ hb, hab⟩
        · exact Or.inr rfl

theorem containsSeg_of_prefix {needle hay : List Char} (h : needle <+: hay) :
    containsSeg needle hay = true := by
  unfold containsSeg
  rw [List.any_eq_true]
  refine ⟨0, by simp, ?_⟩
  simpa [List.isPrefixOf_iff_prefix] using h

theorem segmentsSpec_contains (text : List Char) :
    ∀ seg ∈ segmentsSpec text, containsSeg orderIdLit seg = true := by
  intro seg hseg
  unfold segmentsSpec at hseg
  rw [List.mem_map] at hseg
  obtain ⟨⟨a, b⟩, hab, rfl⟩ := hseg
  obtain ⟨ha, hb⟩ := mem_zip_tail text.length _ (markerPositions_sorted text)
    a b hab
  have hma := (mem_markerPositions.1 ha).2
  obtain ⟨r, hr⟩ := markerFrom_append hma
  have hgap : a + 9 ≤ b := by
    rcases hb with ⟨hbmem, hlt⟩ | rfl
    · exact markerPositions_gap text ha hbmem hlt
    · have h9 := markerFrom_length hma
      have halen := (mem_markerPositions.1 ha).1
      rw [List.length_drop] at h9
      omega
  apply containsSeg_of_prefix
  rw [hr, List.take_append_eq_append_take,
    List.take_of_length_le (by simp [orderIdLit]; omega)]
  exact List.prefix_append _ _

theorem join_pieces (text : List Char) :
    ∀ (ps : List Nat) (a : Nat), (a :: ps).Pairwise (· < ·) →
      (∀ x ∈ a :: ps, x ≤ text.length) →
      ((((a :: ps).zip (ps ++ [text.length])).map
        (fun ab => (text.drop ab.1).take (ab.2 - ab.1))).foldr
          (· ++ ·) []) =
        (text.drop a).take (text.length - a) := by
  intro ps
  induction ps with
  | nil =>
    intro a _ _
    simp
  | cons q rest ih =>
    intro a hp hb
    have haq : a < q := (List.pairwise_cons.1 hp).1 q (by simp)
    have hql : q ≤ text.length := hb q (by simp)
    rw [List.cons_append, List.zip_cons_cons, List.map_cons, List.foldr_cons,
      ih q (List.pairwise_cons.1 hp).2
        (fun x hx => hb x (List.mem_cons_of_mem _ hx))]
    have hdq : text.drop q = (text.drop a).drop (q - a) := by
      rw [List.drop_drop]
      congr 1
      omega
    rw [hdq, ← List.take_add]
    congr 1
    omega

/-- Chunk characterization on text with no leading unmarked content
(empty, or starting at a marker occurrence): segmentation returns exactly
one chunk per marker occurrence, each chunk starting at its marker and
running to the next one, and the chunks concatenate back to the text. -/
theorem split_segments_spec (text : List Char)
    (h : text = [] ∨ markerFrom text = true) :
    splitSegments text = segmentsSpec text ∧
    (splitSegments text).length = (markerPositions text).length ∧
    (splitSegments text).foldr (· ++ ·) [] = text := by
  rcases h with rfl | h
  · exact ⟨rfl, rfl, rfl⟩
  · obtain ⟨rest, hps⟩ := markerPositions_head h
    have hcut : cutPieces text (markerPositions text) =
        [] :: segmentsSpec text := by
      unfold cutPieces segmentsSpec
      rw [hps]
      simp [List.zip_cons_cons]
    have hfil : splitSegments text = segmentsSpec text := by
      unfold splitSegments
      rw [hcut, List.filter_cons]
      have hnil : containsSeg orderIdLit [] = false := by decide
      rw [hnil]
      simp only [Bool.false_eq_true, if_false]
      exact List.filter_eq_self.2 (segmentsSpec_contains text)
    refine ⟨hfil, ?_, ?_⟩
    · rw [hfil]
      unfold segmentsSpec
      rw [hps]
      simp [List.length_zip]
    · rw [hfil]
      unfold segmentsSpec
      rw [hps]
      have hbnd : ∀ x ∈ (0 : Nat) :: rest, x ≤ text.length := by
        intro x hx
        rw [← hps] at hx
        have := (mem_markerPositions.1 hx).1
        omega
      have hjoin := join_pieces text rest 0
        (by rw [← hps]; exact markerPositions_sorted text) hbnd
      simp only [List.tail_cons]
      rw [hjoin]
      simp [List.take_of_length_le]

/-- Behavior on marker-free text: `re.split` returns the whole text as the
single part, and the filter keeps it exactly when it contains the literal
`Order ID:`. -/
theorem splitSegments_no_marker (text : List Char)
    (h : markerPositions text = []) :
    splitSegments text =
      if containsSeg orderIdLit text = true then [text] else [] := by
  unfold splitSegments cutPieces
  rw [h]
  have hone : (text.drop 0).take (text.length - 0) = text := by
    simp [List.take_length]
  simp only [List.nil_append, List.zip_cons_cons, List.zip_nil_left,
    List.map_cons, List.map_nil, hone]
  rw [List.filter_cons]
  cases hc : containsSeg orderIdLit text <;> simp [hc]

/-- Claim C2, counterexample: a text with zero marker occurrences does not
always yield zero chunks — the zero-marker text `Order ID: junk` contains
the bare `Order ID:` literal without the 3-7-7 number, so the filter keeps
the single part produced by the split and segmentation returns one chunk,
the whole text. -/
theorem splitSegments_zero_marker_chunk :
    markerPositions zeroMarkerTextW = [] ∧
    splitSegments zeroMarkerTextW = [zeroMarkerTextW] := by
  constructor <;> decide

/-- Claim C2, amended: on text with no leading unmarked content,
segmentation yields exactly one chunk per marker occurrence, each chunk
beginning at its marker and running to the next (non-overlapping, in source
order, concatenating back to the text); an input with zero markers yields,
without error, zero chunks when it does not contain the literal
`Order ID:`, and otherwise the whole text as a single chunk. -/
theorem split_segments_amended (text : List Char) :
    ((text = [] ∨ markerFrom text = true) →
      splitSegments text = segmentsSpec text ∧
      (splitSegments text).length = (markerPositions text).length ∧
      (splitSegments text).foldr (· ++ ·) [] = text) ∧
    (markerPositions text = [] →
      splitSegments text =
        if containsSeg orderIdLit text = true then [text] else []) :=
  ⟨split_segments_spec text, splitSegments_no_marker text⟩

/-- Witness for the amended C2 theorem: the chunk characterization at a
concrete two-order document, and the zero-marker characterization at a
marker-free text with and without the bare literal. -/
theorem split_segments_amended_witness :
    (splitSegments segTextW = segmentsSpec segTextW ∧
     (splitSegments segTextW).length = (markerPositions segTextW).length ∧
     (splitSegments segTextW).foldr (· ++ ·) [] = segTextW) ∧
    splitSegments zeroMarkerTextW =
      (if containsSeg orderIdLit zeroMarkerTextW = true
        then [zeroMarkerTextW] else []) ∧
    splitSegments "no markers here".toList =
      (if containsSeg orderIdLit "no markers here".toList = true
        then ["no markers here".toList] else []) :=
  ⟨(split_segments_amended segTextW).1 (Or.inr (by decide)),
   (split_segments_amended zeroMarkerTextW).2 (by decide),
   (split_segments_amended "no markers here".toList).2 (by decide)⟩

/-!
Claim C8: parse_order_date on canonical `YYYY-MM-DD` input.
-/

theorem optEta {γ : Type} (o : Option γ) :
    (match o with | some b => some b | none => none) = o := by
  cases o <;> rfl

theorem optBindSome {α β : Type} (a : α) (f : α → Option β) :
    (some a).bind f = f a := rfl

theorem optBindNone {α β : Type} (f : α → Option β) :
    (none : Option α).bind f = none := rfl

theorem optOrElseNone {α : Type} (f : Unit → Option α) :
    (none : Option α).orElse f = f () := rfl

theorem optOrElseSome {α : Type} (a : α) (f : Unit → Option α) :
    (some a).orElse f = some a := rfl

theorem dropLit_dash (rest : List Char) :
    dropLit ['-'] ('-' :: rest) = some rest := rfl

theorem optMBindSome {α β : Type} (a : α) (f : α → Option β) :
    Bind.bind (some a) f = f a := rfl

theorem optMBindNone {α β : Type} (f : α → Option β) :
    Bind.bind (none : Option α) f = none := rfl

theorem isDigit09_digitChar {v : Nat} (h : v ≤ 9) :
    isDigit09 (digitChar v) = true := by
  interval_cases v <;> decide

theorem digitVal_digitChar {v : Nat} (h : v ≤ 9) :
    digitVal (digitChar v) = v := by
  interval_cases v <;> decide

theorem isSpacePy_digitChar {v : Nat} (h : v ≤ 9) :
    isSpacePy (digitChar v) = false := by
  interval_cases v <;> decide

theorem toLower_digitChar {v : Nat} (h : v ≤ 9) :
    (digitChar v).toLower = digitChar v := by
  interval_cases v <;> decide

theorem toLower_dash : Char.toLower '-' = '-' := by decide

theorem digit_exists {c : Char} (h : isDigit09 c = true) :
    ∃ v : Nat, v ≤ 9 ∧ c = digitChar v := by
  simp only [isDigit09, Bool.and_eq_true, decide_eq_true_eq] at h
  obtain ⟨h1, h2⟩ := h
  have h1n : 48 ≤ c.toNat := by
    have := Char.le_def.1 h1
    simpa using this
  have h2n : c.toNat ≤ 57 := by
    have := Char.le_def.1 h2
    simpa using this
  refine ⟨c.toNat - 48, by omega, ?_⟩
  unfold digitChar
  rw [Nat.add_sub_cancel' h1n]
  exact (Char.ofNat_toNat c).symm

theorem dropAbbr_day_digit {v : Nat} (hv : v ≤ 9) (rest : List Char) :
    dropAbbr dayAbbrs (digitChar v :: rest) = none := by
  interval_cases v <;>
    simp +decide [dropAbbr, dayAbbrs, dropLit, List.findSome?, List.enum,
      List.enumFrom]

theorem dropAbbr_month_digit {v : Nat} (hv : v ≤ 9) (rest : List Char) :
    dropAbbr monthAbbrs (digitChar v :: rest) = none := by
  interval_cases v <;>
    simp +decide [dropAbbr, monthAbbrs, dropLit, List.findSome?, List.enum,
      List.enumFrom]

theorem strpFmt1_digit {v : Nat} (hv : v ≤ 9) (rest : List Char) :
    strpFmt1 (digitChar v :: rest) = none := by
  unfold strpFmt1
  rw [dropAbbr_day_digit hv]
  rfl

theorem strpFmt2_digit {v : Nat} (hv : v ≤ 9) (rest : List Char) :
    strpFmt2 (digitChar v :: rest) = none := by
  unfold strpFmt2
  rw [dropAbbr_month_digit hv]
  rfl

theorem dayStage {γ : Type} (v7 v8 : Nat) (h7 : v7 ≤ 9) (h8 : v8 ≤ 9)
    (g : Nat → Option γ) :
    (dayAlts [digitChar v7, digitChar v8]).findSome?
      (fun pd => if pd.2.isEmpty then g pd.1 else none) =
      if 1 ≤ 10 * v7 + v8 ∧ 10 * v7 + v8 ≤ 31 then
        g (10 * v7 + v8) else none := by
  interval_cases v7 <;> interval_cases v8 <;>
    simp +decide [dayAlts, List.findSome?, digitVal_digitChar] <;>
    exact optEta _

theorem monthStage {γ : Type} (v5 v6 : Nat) (h5 : v5 ≤ 9) (h6 : v6 ≤ 9)
    (tail : List Char) (g : Nat → List Char → Option γ) :
    (monthAlts (digitChar v5 :: digitChar v6 :: '-' :: tail)).findSome?
      (fun pm => Bind.bind (dropLit ['-'] pm.2) (fun r => g pm.1 r)) =
      if 1 ≤ 10 * v5 + v6 ∧ 10 * v5 + v6 ≤ 12 then g (10 * v5 + v6) tail
      else none := by
  interval_cases v5 <;> interval_cases v6 <;>
    simp +decide [monthAlts, dropLit, List.findSome?, digitVal_digitChar,
      optMBindSome, optMBindNone] <;>
    exact optEta _

theorem parseY4_pad {v1 v2 v3 v4 : Nat} (h1 : v1 ≤ 9) (h2 : v2 ≤ 9)
    (h3 : v3 ≤ 9) (h4 : v4 ≤ 9) (rest : List Char) :
    parseY4 (digitChar v1 :: digitChar v2 :: digitChar v3 :: digitChar v4 ::
      rest) = some (1000 * v1 + 100 * v2 + 10 * v3 + v4, rest) := by
  simp [parseY4, isDigit09_digitChar h1, isDigit09_digitChar h2,
    isDigit09_digitChar h3, isDigit09_digitChar h4, digitVal_digitChar h1,
    digitVal_digitChar h2, digitVal_digitChar h3, digitVal_digitChar h4]

theorem digitsPair_pad {va vb : Nat} (ha : va ≤ 9) (hb : vb ≤ 9)
    (rest : List Char) :
    digitsPair (digitChar va :: digitChar vb :: rest) =
      some (10 * va + vb, rest) := by
  simp [digitsPair, isDigit09_digitChar ha, isDigit09_digitChar hb,
    digitVal_digitChar ha, digitVal_digitChar hb]

theorem strpIso_pad {v1 v2 v3 v4 v5 v6 v7 v8 : Nat} (h1 : v1 ≤ 9)
    (h2 : v2 ≤ 9) (h3 : v3 ≤ 9) (h4 : v4 ≤ 9) (h5 : v5 ≤ 9) (h6 : v6 ≤ 9)
    (h7 : v7 ≤ 9) (h8 : v8 ≤ 9) :
    strpIso [digitChar v1, digitChar v2, digitChar v3, digitChar v4, '-',
      digitChar v5, digitChar v6, '-', digitChar v7, digitChar v8] =
      if (1 ≤ 10 * v5 + v6 ∧ 10 * v5 + v6 ≤ 12) ∧
          (1 ≤ 10 * v7 + v8 ∧ 10 * v7 + v8 ≤ 31) then
        some (1000 * v1 + 100 * v2 + 10 * v3 + v4, 10 * v5 + v6,
          10 * v7 + v8)
      else none := by
  unfold strpIso
  rw [parseY4_pad h1 h2 h3 h4]
  simp only [optMBindSome, optBindSome, dropLit_dash]
  rw [monthStage v5 v6 h5 h6 [digitChar v7, digitChar v8]
    (fun m r => (dayAlts r).findSome?
      (fun pd => if pd.2.isEmpty then
        some (1000 * v1 + 100 * v2 + 10 * v3 + v4, m, pd.1) else none))]
  by_cases hm : 1 ≤ 10 * v5 + v6 ∧ 10 * v5 + v6 ≤ 12
  · rw [if_pos hm]
    rw [dayStage v7 v8 h7 h8
      (fun d => some (1000 * v1 + 100 * v2 + 10 * v3 + v4,
        10 * v5 + v6, d))]
    by_cases hd : 1 ≤ 10 * v7 + v8 ∧ 10 * v7 + v8 ≤ 31
    · rw [if_pos hd, if_pos ⟨hm, hd⟩]
    · rw [if_neg hd, if_neg (fun hc => hd hc.2)]
  · rw [if_neg hm, if_neg (fun hc => hm hc.1)]

theorem dateutil_pad {v1 v2 v3 v4 v5 v6 v7 v8 : Nat} (h1 : v1 ≤ 9)
    (h2 : v2 ≤ 9) (h3 : v3 ≤ 9) (h4 : v4 ≤ 9) (h5 : v5 ≤ 9) (h6 : v6 ≤ 9)
    (h7 : v7 ≤ 9) (h8 : v8 ≤ 9) :
    dateutilNumericIso [digitChar v1, digitChar v2, digitChar v3,
      digitChar v4, '-', digitChar v5, digitChar v6, '-', digitChar v7,
      digitChar v8] =
      if validDate (1000 * v1 + 100 * v2 + 10 * v3 + v4) (10 * v5 + v6)
          (10 * v7 + v8) then
        some (1000 * v1 + 100 * v2 + 10 * v3 + v4, 10 * v5 + v6,
          10 * v7 + v8)
      else none := by
  unfold dateutilNumericIso
  rw [parseY4_pad h1 h2 h3 h4]
  simp only [optMBindSome, optBindSome, dropLit_dash]
  rw [digitsPair_pad h5 h6]
  simp only [optMBindSome, optBindSome, dropLit_dash]
  rw [digitsPair_pad h7 h8]
  simp only [optMBindSome, optBindSome]
  simp

theorem daysInMonth_le (y m : Nat) : daysInMonth y m ≤ 31 := by
  unfold daysInMonth
  split_ifs <;> omega

theorem pyStrip_of_ends {c d : Char} {m : List Char} (hc : isSpacePy c = false)
    (hd : isSpacePy d = false) :
    pyStrip (c :: (m ++ [d])) = c :: (m ++ [d]) := by
  unfold pyStrip stripEnd
  rw [List.dropWhile_cons]
  simp only [hc, Bool.false_eq_true, if_false]
  rw [show (c :: (m ++ [d])).reverse = d :: (c :: m).reverse from by simp]
  rw [List.dropWhile_cons]
  simp only [hd, Bool.false_eq_true, if_false]
  simp

theorem toLower_iso {v1 v2 v3 v4 v5 v6 v7 v8 : Nat} (h1 : v1 ≤ 9)
    (h2 : v2 ≤ 9) (h3 : v3 ≤ 9) (h4 : v4 ≤ 9) (h5 : v5 ≤ 9) (h6 : v6 ≤ 9)
    (h7 : v7 ≤ 9) (h8 : v8 ≤ 9) :
    toLowerStr [digitChar v1, digitChar v2, digitChar v3, digitChar v4, '-',
      digitChar v5, digitChar v6, '-', digitChar v7, digitChar v8] =
      [digitChar v1, digitChar v2, digitChar v3, digitChar v4, '-',
        digitChar v5, digitChar v6, '-', digitChar v7, digitChar v8] := by
  simp [toLowerStr, toLower_digitChar h1, toLower_digitChar h2,
    toLower_digitChar h3, toLower_digitChar h4, toLower_digitChar h5,
    toLower_digitChar h6, toLower_digitChar h7, toLower_digitChar h8,
    toLower_dash]

theorem isoFormat_pad {v1 v2 v3 v4 v5 v6 v7 v8 : Nat} (h1 : v1 ≤ 9)
    (h2 : v2 ≤ 9) (h3 : v3 ≤ 9) (h4 : v4 ≤ 9) (h5 : v5 ≤ 9) (h6 : v6 ≤ 9)
    (h7 : v7 ≤ 9) (h8 : v8 ≤ 9) :
    isoFormat (1000 * v1 + 100 * v2 + 10 * v3 + v4) (10 * v5 + v6)
      (10 * v7 + v8) =
      [digitChar v1, digitChar v2, digitChar v3, digitChar v4, '-',
        digitChar v5, digitChar v6, '-', digitChar v7, digitChar v8] := by
  unfold isoFormat pad4 pad2
  have e1 : (1000 * v1 + 100 * v2 + 10 * v3 + v4) / 1000 % 10 = v1 := by
    omega
  have e2 : (1000 * v1 + 100 * v2 + 10 * v3 + v4) / 100 % 10 = v2 := by
    omega
  have e3 : (1000 * v1 + 100 * v2 + 10 * v3 + v4) / 10 % 10 = v3 := by
    omega
  have e4 : (1000 * v1 + 100 * v2 + 10 * v3 + v4) % 10 = v4 := by omega
  have e5 : (10 * v5 + v6) / 10 % 10 = v5 := by omega
  have e6 : (10 * v5 + v6) % 10 = v6 := by omega
  have e7 : (10 * v7 + v8) / 10 % 10 = v7 := by omega
  have e8 : (10 * v7 + v8) % 10 = v8 := by omega
  rw [e1, e2, e3, e4, e5, e6, e7, e8]
  rfl

theorem parse_order_date_pad {v1 v2 v3 v4 v5 v6 v7 v8 : Nat} (h1 : v1 ≤ 9)
    (h2 : v2 ≤ 9) (h3 : v3 ≤ 9) (h4 : v4 ≤ 9) (h5 : v5 ≤ 9) (h6 : v6 ≤ 9)
    (h7 : v7 ≤ 9) (h8 : v8 ≤ 9) :
    parseOrderDate [digitChar v1, digitChar v2, digitChar v3, digitChar v4,
      '-', digitChar v5, digitChar v6, '-', digitChar v7, digitChar v8] =
      [digitChar v1, digitChar v2, digitChar v3, digitChar v4, '-',
        digitChar v5, digitChar v6, '-', digitChar v7, digitChar v8] := by
  have hstrip : pyStrip [digitChar v1, digitChar v2, digitChar v3,
      digitChar v4, '-', digitChar v5, digitChar v6, '-', digitChar v7,
      digitChar v8] =
      [digitChar v1, digitChar v2, digitChar v3, digitChar v4, '-',
        digitChar v5, digitChar v6, '-', digitChar v7, digitChar v8] := by
    have := pyStrip_of_ends (c := digitChar v1) (d := digitChar v8)
      (m := [digitChar v2, digitChar v3, digitChar v4, '-', digitChar v5,
        digitChar v6, '-', digitChar v7])
      (isSpacePy_digitChar h1) (isSpacePy_digitChar h8)
    simpa using this
  simp only [parseOrderDate]
  rw [hstrip]
  simp only [List.isEmpty_cons, Bool.false_eq_true, if_false]
  rw [toLower_iso h1 h2 h3 h4 h5 h6 h7 h8]
  rw [strpFmt1_digit h1, strpFmt2_digit h1]
  simp only [validOpt, optBindNone, optOrElseNone]
  by_cases hr : (1 ≤ 10 * v5 + v6 ∧ 10 * v5 + v6 ≤ 12) ∧
      (1 ≤ 10 * v7 + v8 ∧ 10 * v7 + v8 ≤ 31)
  · rw [strpIso_pad h1 h2 h3 h4 h5 h6 h7 h8, if_pos hr]
    simp only [optBindSome]
    by_cases hv : validDate (1000 * v1 + 100 * v2 + 10 * v3 + v4)
        (10 * v5 + v6) (10 * v7 + v8) = true
    · rw [if_pos hv]
      simp only [optOrElseSome]
      exact isoFormat_pad h1 h2 h3 h4 h5 h6 h7 h8
    · rw [if_neg hv]
      simp only [optOrElseNone]
      rw [dateutil_pad h1 h2 h3 h4 h5 h6 h7 h8, if_neg hv]
  · rw [strpIso_pad h1 h2 h3 h4 h5 h6 h7 h8, if_neg hr]
    simp only [optBindNone, optOrElseNone]
    rw [dateutil_pad h1 h2 h3 h4 h5 h6 h7 h8]
    have hv : ¬ validDate (1000 * v1 + 100 * v2 + 10 * v3 + v4)
        (10 * v5 + v6) (10 * v7 + v8) = true := by
      intro hvv
      simp only [validDate, Bool.and_eq_true, decide_eq_true_eq] at hvv
      have hle := daysInMonth_le (1000 * v1 + 100 * v2 + 10 * v3 + v4)
        (10 * v5 + v6)
      omega
    rw [if_neg hv]

theorem isoShape_decompose {s : List Char} (h : isoShape s = true) :
    ∃ v1 v2 v3 v4 v5 v6 v7 v8 : Nat, v1 ≤ 9 ∧ v2 ≤ 9 ∧ v3 ≤ 9 ∧
      v4 ≤ 9 ∧ v5 ≤ 9 ∧ v6 ≤ 9 ∧ v7 ≤ 9 ∧ v8 ≤ 9 ∧
      s = [digitChar v1, digitChar v2, digitChar v3, digitChar v4, '-',
        digitChar v5, digitChar v6, '-', digitChar v7, digitChar v8] := by
  rcases s with - | ⟨a1, s⟩; · exact absurd h (Bool.false_ne_true)
  rcases s with - | ⟨a2, s⟩; · exact absurd h (Bool.false_ne_true)
  rcases s with - | ⟨a3, s⟩; · exact absurd h (Bool.false_ne_true)
  rcases s with - | ⟨a4, s⟩; · exact absurd h (Bool.false_ne_true)
  rcases s with - | ⟨a5, s⟩; · exact absurd h (Bool.false_ne_true)
  rcases s with - | ⟨a6, s⟩; · exact absurd h (Bool.false_ne_true)
  rcases s with - | ⟨a7, s⟩; · exact absurd h (Bool.false_ne_true)
  rcases s with - | ⟨a8, s⟩; · exact absurd h (Bool.false_ne_true)
  rcases s with - | ⟨a9, s⟩; · exact absurd h (Bool.false_ne_true)
  rcases s with - | ⟨a10, s⟩; · exact absurd h (Bool.false_ne_true)
  rcases s with - | ⟨a11, s⟩
  · simp only [isoShape, Bool.and_eq_true, beq_iff_eq] at h
    obtain ⟨⟨⟨⟨⟨⟨⟨⟨⟨hd1, hd2⟩, hd3⟩, hd4⟩, he1⟩, hd5⟩, hd6⟩, he2⟩,
      hd7⟩, hd8⟩ := h
    subst he1
    subst he2
    obtain ⟨w1, hw1, rfl⟩ := digit_exists hd1
    obtain ⟨w2, hw2, rfl⟩ := digit_exists hd2
    obtain ⟨w3, hw3, rfl⟩ := digit_exists hd3
    obtain ⟨w4, hw4, rfl⟩ := digit_exists hd4
    obtain ⟨w5, hw5, rfl⟩ := digit_exists hd5
    obtain ⟨w6, hw6, rfl⟩ := digit_exists hd6
    obtain ⟨w7, hw7, rfl⟩ := digit_exists hd7
    obtain ⟨w8, hw8, rfl⟩ := digit_exists hd8
    exact ⟨w1, w2, w3, w4, w5, w6, w7, w8, hw1, hw2, hw3, hw4, hw5, hw6,
      hw7, hw8, rfl⟩
  · exact absurd h (Bool.false_ne_true)

/-- Claim C8: the date resolver is the identity on every string of the
canonical `YYYY-MM-DD` shape: a valid calendar date is parsed by the
`%Y-%m-%d` format and re-emitted as the identical zero-padded ISO string,
and an invalid one falls through every format and the dateutil fallback
(which reads the same year/month/day fields and rejects them too), so the
raw string is returned unchanged rather than raising. -/
theorem parse_order_date_roundtrip (s : List Char) (h : isoShape s = true) :
    parseOrderDate s = s := by
  obtain ⟨v1, v2, v3, v4, v5, v6, v7, v8, h1, h2, h3, h4, h5, h6, h7, h8,
    rfl⟩ := isoShape_decompose h
  exact parse_order_date_pad h1 h2 h3 h4 h5 h6 h7 h8

/-- Witness for the C8 theorem: a valid date returns unchanged, and an
invalid calendar date in canonical shape also returns unchanged. -/
theorem parse_order_date_roundtrip_witness :
    parseOrderDate "2025-11-15".toList = "2025-11-15".toList ∧
    parseOrderDate "2025-02-30".toList = "2025-02-30".toList :=
  ⟨parse_order_date_roundtrip _ (by decide),
   parse_order_date_roundtrip _ (by decide)⟩

end BoardParser
